import Mathlib

/-!
Verification development for the corteks note-taking backend.

The embedding models the hierarchy service (`src/backend/src/routes/folders.ts`),
the item store (`src/backend/src/database.ts` over the `notes` table of the
init SQL script), and the processing service
(`src/backend/src/routes/process.ts`, `src/backend/src/services/processor.ts`).

Strings are modelled as `List Char`; the database table as a `List Item`;
identifiers and timestamps as `Nat`.  The external LLM collaborator is a
function parameter, as the spec treats it (an opaque fallible text-to-text
function chosen by the process kind).  Database write failures are modelled by
a `FailPlan` saying which of the four writes of a processing run throws.
-/

/-- Whitespace test used by both the model of JS `String.prototype.trim` and
the model of the regex class `\s` (the characters that can actually occur in
the data of this development). -/
def isWsChar (c : Char) : Bool :=
  c = ' ' || c = '\t' || c = '\n' || c = '\r' || c = '\x0b' || c = '\x0c'

/-- Left trim: drop leading whitespace. -/
def ltrim (l : List Char) : List Char := l.dropWhile isWsChar

/-- Right trim: drop trailing whitespace. -/
def rtrim (l : List Char) : List Char := (l.reverse.dropWhile isWsChar).reverse

/-- Model of JS `String.prototype.trim`. -/
def trimStr (l : List Char) : List Char := rtrim (ltrim l)

/-- Model of JS `split('\n')`: splitting the empty string yields one empty
piece, and every newline separates two pieces. -/
def splitNl : List Char → List (List Char)
  | [] => [[]]
  | c :: rest =>
    if c = '\n' then [] :: splitNl rest
    else
      match splitNl rest with
      | [] => [[c]]
      | p :: ps => (c :: p) :: ps

/-- Model of JS `startsWith`. -/
def hasPref : List Char → List Char → Bool
  | [], _ => true
  | _ :: _, [] => false
  | p :: ps, c :: cs => p = c && hasPref ps cs

/-- Tiptap JSON trees.  A node carries its `type` tag, the optional heading
`level` attribute, the optional `text` field, and its `content`.  The
`content` list is fused into the same inductive (`lnil`/`lcons`) so that all
functions are plain structural recursions. -/
inductive NodeKind where
  | doc | heading | paragraph | bulletList | orderedList | listItem | text
  deriving DecidableEq, Repr

inductive TT where
  | node (kind : NodeKind) (level : Option Nat) (text : Option (List Char)) (content : TT)
  | lnil
  | lcons (hd : TT) (tl : TT)
  deriving DecidableEq, Repr

/-- Build a `TT` content list from a Lean list. -/
def listToTT : List TT → TT
  | [] => .lnil
  | b :: bs => .lcons b (listToTT bs)

/-- Convenience constructor for a node with a list of children. -/
def tnode (k : NodeKind) (lv : Option Nat) (tx : Option (List Char)) (cs : List TT) : TT :=
  .node k lv tx (listToTT cs)

/-- A plain text leaf, as produced by the converter. -/
def ttext (t : List Char) : List TT := [tnode .text none (some t) []]

/-- The block test of `extractTextFromTiptap`'s traversal:
`child.type === 'paragraph' || child.type === 'heading'`. -/
def isBlockT : TT → Bool
  | .node k _ _ _ => k = .paragraph || k = .heading
  | _ => false

/-- Kind accessor (for statements about block lists). -/
def TT.kindOf : TT → Option NodeKind
  | .node k _ _ _ => some k
  | _ => none

/-- The recursive `traverse` of `extractTextFromTiptap`
(`src/backend/src/services/processor.ts`): a node contributes its own `text`,
then each child in order, with a newline appended after each child whose type
is `paragraph` or `heading`. -/
def extractAux : TT → List Char
  | .node _ _ tx cs => (tx.getD []) ++ extractAux cs
  | .lnil => []
  | .lcons hd tl => extractAux hd ++ (if isBlockT hd then ['\n'] else []) ++ extractAux tl

/-- `extractTextFromTiptap`: traverse, then `.trim()`. -/
def extractTextFromTiptap (d : TT) : List Char := trimStr (extractAux d)

/-- Bullet line test of `markdownToTiptap`: `line.startsWith('- ') || line.startsWith('* ')`. -/
def isBulletLine (l : List Char) : Bool :=
  hasPref ['-', ' '] l || hasPref ['*', ' '] l

/-- First character is whitespace. -/
def headIsWs : List Char → Bool
  | c :: _ => isWsChar c
  | [] => false

/-- Ordered-list line test of `markdownToTiptap`: the regex `/^\d+\.\s/` —
a nonempty digit prefix, then a dot, then one whitespace character. -/
def isOrderedLine (l : List Char) : Bool :=
  decide (l.takeWhile Char.isDigit ≠ []) &&
  decide ((l.dropWhile Char.isDigit).head? = some '.') &&
  headIsWs ((l.dropWhile Char.isDigit).drop 1)

/-- Text of an ordered-list item: `line.replace(/^\d+\.\s/, '')` drops the
digits, the dot and one whitespace character. -/
def stripOrdered (l : List Char) : List Char :=
  (l.dropWhile Char.isDigit).drop 2

/-- One list item of the converter: a `listItem` holding a `paragraph`
holding a text leaf. -/
def mdListItem (t : List Char) : TT :=
  tnode .listItem none none [tnode .paragraph none none (ttext t)]

/-- The line loop of `markdownToTiptap`.  The imperative loop consumes at
least one line per iteration, so fuel equal to the number of lines makes the
fuelled version exact. -/
def mdLoopF : Nat → List (List Char) → List TT
  | 0, _ => []
  | _ + 1, [] => []
  | f + 1, l :: rest =>
    if trimStr l = [] then mdLoopF f rest
    else if hasPref ['#', ' '] l then
      tnode .heading (some 1) none (ttext (l.drop 2)) :: mdLoopF f rest
    else if hasPref ['#', '#', ' '] l then
      tnode .heading (some 2) none (ttext (l.drop 3)) :: mdLoopF f rest
    else if hasPref ['#', '#', '#', ' '] l then
      tnode .heading (some 3) none (ttext (l.drop 4)) :: mdLoopF f rest
    else if isBulletLine l then
      tnode .bulletList none none
          ((l :: rest.takeWhile isBulletLine).map (fun t => mdListItem (t.drop 2)))
        :: mdLoopF f (rest.dropWhile isBulletLine)
    else if isOrderedLine l then
      tnode .orderedList none none
          ((l :: rest.takeWhile isOrderedLine).map (fun t => mdListItem (stripOrdered t)))
        :: mdLoopF f (rest.dropWhile isOrderedLine)
    else
      tnode .paragraph none none (ttext l) :: mdLoopF f rest

/-- The block list produced by `markdownToTiptap`. -/
def mdBlocks (md : List Char) : List TT :=
  mdLoopF (splitNl md).length (splitNl md)

/-- `markdownToTiptap`: a `doc` node holding the converted blocks. -/
def markdownToTiptap (md : List Char) : TT :=
  tnode .doc none none (mdBlocks md)

/-- The legacy two-valued `type` column (`'user' | 'ai'`). -/
inductive UType where
  | user | ai
  deriving DecidableEq, Repr

/-- The three-valued `item_type` column (`'folder' | 'note' | 'ai-note'`). -/
inductive ItemType where
  | folder | note | aiNote
  deriving DecidableEq, Repr

/-- Column value of `item_type`, as compared by `ORDER BY item_type`. -/
def itemTypeName : ItemType → List Char
  | .folder => ['f', 'o', 'l', 'd', 'e', 'r']
  | .note => ['n', 'o', 't', 'e']
  | .aiNote => ['a', 'i', '-', 'n', 'o', 't', 'e']

/-- The `status` column values. -/
inductive NoteStatus where
  | draft | processing | complete | failed
  deriving DecidableEq, Repr

/-- The process kinds accepted by the processing routes. -/
inductive ProcessType where
  | research | summarize | expandIdeas | actionplan
  deriving DecidableEq, Repr

/-- A row of the `notes` table (init SQL script plus the folder migration). -/
structure Item where
  id : Nat
  parent_id : Option Nat
  utype : UType
  item_type : ItemType
  name : Option (List Char)
  content : Option TT
  process_type : Option ProcessType
  status : Option NoteStatus
  error_message : Option (List Char)
  created_at : Nat
  deriving DecidableEq, Repr

/-- The table state. -/
abbrev DbState := List Item

/-- `SELECT ... FROM notes WHERE id = $1` (first matching row). -/
def findItem (s : DbState) (i : Nat) : Option Item :=
  s.find? (fun it => it.id == i)

/-- Errors surfaced by the folder and item routes, one constructor per
distinct rejection of the source. -/
inductive Err where
  | folderNotFound      -- 404 'Folder not found'
  | itemNotFound        -- 404 'Item not found'
  | noteNotFound        -- 404 'Note not found'
  | parentNotFound      -- 404 'Parent folder not found'
  | parentNotFolder     -- 400 'Parent must be a folder'
  | notAFolder          -- 400 'Item is not a folder'
  | ownParent           -- 400 'cannot be its own parent'
  | circular            -- 400 'Cannot create circular folder structure'
  | nameRequired        -- 400 'Folder name is required'
  | nameTooLong         -- 400 'Folder name too long'
  | noUpdates           -- 400 'No updates provided'
  | targetNotFound      -- 404 'Target folder not found'
  | targetNotFolder     -- 400 'Target must be a folder'
  deriving DecidableEq, Repr

/-- Route outcome: an error response, or a success payload. -/
inductive Res (α : Type) where
  | err (e : Err)
  | ok (a : α)
  deriving DecidableEq, Repr

/-- The walk of `checkCircularReference`, fuelled by the remaining depth
budget (`maxDepth = 100`).  Exhausted fuel returns `true` (the source treats
reaching `maxDepth` as circular, failing closed), a chain ending below the
bound returns `false`, and meeting `folderId` returns `true`. -/
def ccrAux (s : DbState) (folderId : Nat) : Option Nat → Nat → Bool
  | _, 0 => true
  | none, _ + 1 => false
  | some cid, fuel + 1 =>
    if cid = folderId then true
    else
      match findItem s cid with
      | none => false
      | some row => ccrAux s folderId row.parent_id fuel

/-- `checkCircularReference(folderId, targetParentId)` with the default
`maxDepth` of 100. -/
def checkCircularReference (s : DbState) (folderId targetParentId : Nat) : Bool :=
  ccrAux s folderId (some targetParentId) 100

/-- `POST /folders`: validate the name, validate the optional parent, then
insert a folder row with `type='user'`, `item_type='folder'`,
`content = NULL` and `status = 'complete'`. -/
def createFolder (s : DbState) (nameReq : Option (List Char)) (pid : Option Nat)
    (newId now : Nat) : Res Item × DbState :=
  match nameReq with
  | none => (.err .nameRequired, s)
  | some nm =>
    if trimStr nm = [] then (.err .nameRequired, s)
    else if 255 < (trimStr nm).length then (.err .nameTooLong, s)
    else
      match pid with
      | some p =>
        (match findItem s p with
         | none => (.err .parentNotFound, s)
         | some parent =>
           if parent.item_type ≠ .folder then (.err .parentNotFolder, s)
           else
             let it : Item :=
               { id := newId, parent_id := some p, utype := .user, item_type := .folder,
                 name := some (trimStr nm), content := none, process_type := none,
                 status := some .complete, error_message := none, created_at := now }
             (.ok it, s ++ [it]))
      | none =>
        let it : Item :=
          { id := newId, parent_id := none, utype := .user, item_type := .folder,
            name := some (trimStr nm), content := none, process_type := none,
            status := some .complete, error_message := none, created_at := now }
        (.ok it, s ++ [it])

/-- Lexicographic order on column values, modelling string comparison in
`ORDER BY`. -/
def strLtB : List Char → List Char → Bool
  | [], [] => false
  | [], _ :: _ => true
  | _ :: _, [] => false
  | a :: as_, b :: bs =>
    if a < b then true
    else if b < a then false
    else strLtB as_ bs

/-- Sort key of `ORDER BY item_type DESC, created_at ASC`: `a` may precede
`b` iff `a.item_type` is strictly greater, or the types are equal and `a` was
created no later. -/
def contentsLe (a b : Item) : Bool :=
  if a.item_type = b.item_type then a.created_at ≤ b.created_at
  else strLtB (itemTypeName b.item_type) (itemTypeName a.item_type)

/-- Stable insertion sort used to model `ORDER BY`. -/
def insertLe (le : Item → Item → Bool) (x : Item) : List Item → List Item
  | [] => [x]
  | y :: ys => if le x y then x :: y :: ys else y :: insertLe le x ys

def sortLe (le : Item → Item → Bool) : List Item → List Item
  | [] => []
  | x :: xs => insertLe le x (sortLe le xs)

/-- `GET /folders/:id/contents`: the target must exist and be a folder; the
direct children are returned ordered by `item_type DESC, created_at ASC`. -/
def folderContents (s : DbState) (i : Nat) : Res (List Item) × DbState :=
  match findItem s i with
  | none => (.err .folderNotFound, s)
  | some it =>
    if it.item_type ≠ .folder then (.err .notAFolder, s)
    else (.ok (sortLe contentsLe (s.filter (fun c => c.parent_id == some i))), s)

/-- Row update applying the `SET` clauses of the folder `UPDATE`. -/
def applyFolderUpdate (upName : Option (List Char)) (upParent : Option (Option Nat))
    (it : Item) : Item :=
  let it1 := match upName with
    | some nm => { it with name := some nm }
    | none => it
  match upParent with
  | some pv => { it1 with parent_id := pv }
  | none => it1

/-- `PATCH /folders/:id` (rename and/or move a folder), following the source
order of checks: existence, folder variant, self-parent, parent existence,
parent variant, circular reference, name length, no-op. -/
def patchFolder (s : DbState) (i : Nat) (nameReq : Option (List Char))
    (pidReq : Option (Option Nat)) : Res Item × DbState :=
  match findItem s i with
  | none => (.err .folderNotFound, s)
  | some it =>
    if it.item_type ≠ .folder then (.err .notAFolder, s)
    else
      let parentCheck : Option Err :=
        match pidReq with
        | none => none
        | some pv =>
          if pv = some i then some .ownParent
          else match pv with
            | none => none
            | some p =>
              match findItem s p with
              | none => some .parentNotFound
              | some parent =>
                if parent.item_type ≠ .folder then some .parentNotFolder
                else if checkCircularReference s i p then some .circular
                else none
      match parentCheck with
      | some e => (.err e, s)
      | none =>
        match nameReq with
        | some nm =>
          if trimStr nm ≠ [] ∧ 255 < (trimStr nm).length then (.err .nameTooLong, s)
          else
            let upName := if trimStr nm ≠ [] then some (trimStr nm) else none
            (match upName, pidReq with
             | none, none => (.err .noUpdates, s)
             | _, _ =>
               let s2 := s.map (fun x => if x.id == i then applyFolderUpdate upName pidReq x else x)
               match findItem s2 i with
               | some row => (.ok row, s2)
               | none => (.err .folderNotFound, s2))
        | none =>
          match pidReq with
          | none => (.err .noUpdates, s)
          | some _ =>
            let s2 := s.map (fun x => if x.id == i then applyFolderUpdate none pidReq x else x)
            match findItem s2 i with
            | some row => (.ok row, s2)
            | none => (.err .folderNotFound, s2)

/-- `POST /folders/:id/move` (move any item): existence, self-parent, target
existence, target variant, and — only when the moved item is a folder — the
circular-reference check; then `UPDATE notes SET parent_id = ...`. -/
def moveItemRoute (s : DbState) (i : Nat) (pid : Option Nat) : Res Item × DbState :=
  match findItem s i with
  | none => (.err .itemNotFound, s)
  | some it =>
    let doMove : Res Item × DbState :=
      let s2 := s.map (fun x => if x.id == i then { x with parent_id := pid } else x)
      match findItem s2 i with
      | some row => (.ok row, s2)
      | none => (.err .itemNotFound, s2)
    match pid with
    | none => doMove
    | some p =>
      if p = i then (.err .ownParent, s)
      else
        match findItem s p with
        | none => (.err .targetNotFound, s)
        | some target =>
          if target.item_type ≠ .folder then (.err .targetNotFolder, s)
          else if it.item_type = .folder ∧ checkCircularReference s i p then (.err .circular, s)
          else doMove

/-- One step of the `ON DELETE CASCADE` closure: add the ids of rows whose
parent is already marked deleted. -/
def childStep (s : DbState) (acc : List Nat) : List Nat :=
  acc ++ (s.filter (fun it =>
    decide (it.id ∉ acc) && match it.parent_id with
      | some p => decide (p ∈ acc)
      | none => false)).map (·.id)

def delSetAux (s : DbState) : Nat → List Nat → List Nat
  | 0, acc => acc
  | n + 1, acc => delSetAux s n (childStep s acc)

/-- The set of ids removed by `DELETE FROM notes WHERE id = $1` under the
`parent_id ... ON DELETE CASCADE` constraint: the downward closure of the
deleted id, reached after at most `s.length` closure steps. -/
def delSet (s : DbState) (i : Nat) : List Nat :=
  delSetAux s s.length [i]

/-- The table after a cascading delete of id `i`. -/
def cascadeDelete (s : DbState) (i : Nat) : DbState :=
  s.filter (fun it => decide (it.id ∉ delSet s i))

/-- `DELETE /notes/:id`: existence check, then cascading delete. -/
def deleteNoteRoute (s : DbState) (i : Nat) : Res Unit × DbState :=
  match findItem s i with
  | none => (.err .noteNotFound, s)
  | some _ => (.ok (), cascadeDelete s i)

/-- `UPDATE notes SET status = $1, error_message = $2 WHERE id = $3`
(`noteQueries.updateStatus`). -/
def setStatus (s : DbState) (i : Nat) (st : NoteStatus) (em : Option (List Char)) : DbState :=
  s.map (fun x => if x.id == i then { x with status := some st, error_message := em } else x)

/-- The optional status of the row with id `i`. -/
def statusIn (s : DbState) (i : Nat) : Option (Option NoteStatus) :=
  (findItem s i).map (·.status)

/-- The external text-generation collaborator: given the process kind and the
extracted note text, it either fails with a message or returns markdown.  The
prompt template of `PROCESS_PROMPTS` is a fixed function of exactly these two
arguments, so it is folded into the oracle. -/
abbrev LlmOracle := ProcessType → List Char → Except (List Char) (List Char)

/-- Which database writes of a processing run throw
(`PersistenceFailure`).  Reads are assumed to succeed. -/
structure FailPlan where
  procFail : Bool      -- the initial `updateStatus(id, 'processing')`
  insertFail : Bool    -- the `noteQueries.create` of the child note
  completeFail : Bool  -- the `updateStatus(id, 'complete')`
  failedFail : Bool    -- the `updateStatus(id, 'failed', msg)` in the catch
  deriving DecidableEq, Repr

/-- The all-writes-succeed plan. -/
def noFail : FailPlan :=
  { procFail := false, insertFail := false, completeFail := false, failedFail := false }

/-- Fixed messages of the modelled thrown errors. -/
def msgNoteNotFound : List Char := ['n', 'o', 't', ' ', 'f', 'o', 'u', 'n', 'd']
def msgNullContent : List Char := ['n', 'u', 'l', 'l', ' ', 'c', 'o', 'n', 't', 'e', 'n', 't']
def msgEmptyContent : List Char := ['n', 'o', ' ', 'c', 'o', 'n', 't', 'e', 'n', 't']
def msgInsertFail : List Char := ['i', 'n', 's', 'e', 'r', 't', ' ', 'f', 'a', 'i', 'l']
def msgUpdateFail : List Char := ['u', 'p', 'd', 'a', 't', 'e', ' ', 'f', 'a', 'i', 'l']

/-- `processNote` of `src/backend/src/services/processor.ts`: resolve the
note, extract its text (a `NULL` content throws, a blank extraction throws),
call the collaborator, convert the markdown, and insert the child note.  The
insert omits `item_type`, so the child row takes the column default `'note'`;
its legacy `type` is `'ai'`.  Returns the updated table and the child id, or
the state reached at the throw together with the error message. -/
def processNoteM (llm : LlmOracle) (fp : FailPlan) (s : DbState) (noteId : Nat)
    (k : ProcessType) (newId now : Nat) : Except (DbState × List Char) (DbState × Nat) :=
  match findItem s noteId with
  | none => .error (s, msgNoteNotFound)
  | some note =>
    match note.content with
    | none => .error (s, msgNullContent)
    | some doc =>
      let text := extractTextFromTiptap doc
      if text = [] then .error (s, msgEmptyContent)
      else
        match llm k text with
        | .error m => .error (s, m)
        | .ok md =>
          if fp.insertFail then .error (s, msgInsertFail)
          else
            let child : Item :=
              { id := newId, parent_id := some noteId, utype := .ai, item_type := .note,
                name := none, content := some (markdownToTiptap md), process_type := some k,
                status := some .complete, error_message := none, created_at := now }
            .ok (s ++ [child], newId)

/-- Responses of the processing routes. -/
inductive PResp where
  | badKind                           -- 400 'Invalid process type'
  | notFound                          -- 404 'Note not found'
  | conflict                          -- 409 'Note is already being processed'
  | notFailed                         -- 400 'Can only retry failed notes'
  | noKind                            -- 400 'No process type found for this note'
  | okRun (childId : Nat)             -- 200 success with child id
  | runFailed (msg : List Char)       -- 500 'Processing failed' after marking the note failed
  | internalError (msg : List Char)   -- 500 'Internal server error' from the outer catch
  deriving DecidableEq, Repr

/-- The shared run body of both routes, entered after the note's status was
set to `processing`: call `processNote` inside the inner `try`; on success
write `complete` (a throwing write falls into the same inner `catch`); in the
inner `catch` write `failed` with the message — if that write itself throws,
the outer `catch` answers 500 and the status row keeps whatever was last
written. -/
def runCore (llm : LlmOracle) (fp : FailPlan) (s1 : DbState) (noteId : Nat)
    (k : ProcessType) (newId now : Nat) : PResp × DbState :=
  let handleFail (t : DbState) (msg : List Char) : PResp × DbState :=
    if fp.failedFail then (.internalError msgUpdateFail, t)
    else (.runFailed msg, setStatus t noteId .failed (some msg))
  match processNoteM llm fp s1 noteId k newId now with
  | .ok (s2, childId) =>
    if fp.completeFail then handleFail s2 msgUpdateFail
    else (.okRun childId, setStatus s2 noteId .complete none)
  | .error (t, msg) => handleFail t msg

/-- `POST /notes/:id/process`: validate the kind (`none` models a missing or
unknown `processType`), resolve the note, reject `409` when already
`processing`, set the status to `processing`, and run. -/
def processEndpoint (llm : LlmOracle) (fp : FailPlan) (s : DbState) (i : Nat)
    (kindReq : Option ProcessType) (newId now : Nat) : PResp × DbState :=
  match kindReq with
  | none => (.badKind, s)
  | some k =>
    match findItem s i with
    | none => (.notFound, s)
    | some note =>
      if note.status = some .processing then (.conflict, s)
      else if fp.procFail then (.internalError msgUpdateFail, s)
      else runCore llm fp (setStatus s i .processing none) i k newId now

/-- `POST /notes/:id/retry`: resolve the note, reject unless its status is
`failed`, reject when it has no stored `process_type`, then re-run the
pipeline with the stored kind. -/
def retryEndpoint (llm : LlmOracle) (fp : FailPlan) (s : DbState) (i : Nat)
    (newId now : Nat) : PResp × DbState :=
  match findItem s i with
  | none => (.notFound, s)
  | some note =>
    if note.status ≠ some .failed then (.notFailed, s)
    else
      match note.process_type with
      | none => (.noKind, s)
      | some k =>
        if fp.procFail then (.internalError msgUpdateFail, s)
        else runCore llm fp (setStatus s i .processing none) i k newId now

/-! ### Helper lemmas about the item store -/

theorem findItem_id (s : DbState) (i : Nat) (it : Item) (h : findItem s i = some it) :
    it.id = i := by
  have := List.find?_some h
  simpa using this

theorem findItem_mem (s : DbState) (i : Nat) (it : Item) (h : findItem s i = some it) :
    it ∈ s :=
  List.mem_of_find?_eq_some h

theorem findItem_map_of_id (s : DbState) (f : Item → Item) (i : Nat)
    (hid : ∀ x : Item, (f x).id = x.id) :
    findItem (s.map f) i = (findItem s i).map f := by
  induction s with
  | nil => rfl
  | cons x xs ih =>
    simp only [findItem] at ih ⊢
    simp only [List.map_cons, List.find?_cons]
    cases hB : (x.id == i) with
    | true =>
      have h2 : ((f x).id == i) = true := by rw [hid]; exact hB
      simp only [hB, h2]
      rfl
    | false =>
      have h2 : ((f x).id == i) = false := by rw [hid]; exact hB
      simp only [hB, h2]
      exact ih

theorem findItem_append_some (s t : DbState) (i : Nat) (it : Item)
    (h : findItem s i = some it) : findItem (s ++ t) i = some it := by
  induction s with
  | nil => simp [findItem, List.find?] at h
  | cons x xs ih =>
    simp only [findItem, List.cons_append, List.find?_cons] at h ⊢
    cases hB : (x.id == i) with
    | true => simp only [hB] at h ⊢; exact h
    | false => simp only [hB] at h ⊢; exact ih h

theorem findItem_setStatus (s : DbState) (i : Nat) (st : NoteStatus)
    (em : Option (List Char)) (x0 : Item) (h : findItem s i = some x0) :
    findItem (setStatus s i st em) i
      = some { x0 with status := some st, error_message := em } := by
  unfold setStatus
  induction s with
  | nil => simp [findItem, List.find?] at h
  | cons x xs ih =>
    simp only [findItem, List.find?_cons, List.map_cons] at h ⊢
    cases hB : (x.id == i) with
    | true =>
      simp only [hB] at h
      injection h with h
      subst h
      simp [hB]
    | false =>
      simp only [hB] at h
      simp only [findItem] at ih
      simp only [Bool.false_eq_true, if_false]
      rw [hB]
      simpa using ih h

theorem statusIn_setStatus (s : DbState) (i : Nat) (st : NoteStatus)
    (em : Option (List Char)) (x0 : Item) (h : findItem s i = some x0) :
    statusIn (setStatus s i st em) i = some (some st) := by
  rw [statusIn, findItem_setStatus s i st em x0 h]
  rfl

/-- The child row inserted by a successful `processNote` run.  The insert
omits `item_type`, so the row takes the column default `'note'`. -/
def aiChild (noteId : Nat) (k : ProcessType) (newId now : Nat) (md : List Char) : Item :=
  { id := newId, parent_id := some noteId, utype := .ai, item_type := .note,
    name := none, content := some (markdownToTiptap md), process_type := some k,
    status := some .complete, error_message := none, created_at := now }

/-- Shape of `processNoteM`: it either throws leaving the table unchanged, or
appends exactly one child row and returns the fresh id. -/
theorem processNoteM_cases (llm : LlmOracle) (fp : FailPlan) (s : DbState)
    (i : Nat) (k : ProcessType) (newId now : Nat) :
    (∃ m, processNoteM llm fp s i k newId now = .error (s, m)) ∨
    (∃ child : Item, processNoteM llm fp s i k newId now = .ok (s ++ [child], newId)) := by
  rcases hF : findItem s i with _ | note
  · exact .inl ⟨msgNoteNotFound, by simp [processNoteM, hF]⟩
  · rcases hC : note.content with _ | doc
    · exact .inl ⟨msgNullContent, by simp [processNoteM, hF, hC]⟩
    · by_cases hT : extractTextFromTiptap doc = []
      · exact .inl ⟨msgEmptyContent, by simp [processNoteM, hF, hC, hT]⟩
      · rcases hL : llm k (extractTextFromTiptap doc) with m | md
        · exact .inl ⟨m, by simp [processNoteM, hF, hC, hT, hL]⟩
        · by_cases hI : fp.insertFail = true
          · exact .inl ⟨msgInsertFail, by simp [processNoteM, hF, hC, hT, hL, hI]⟩
          · exact .inr ⟨aiChild i k newId now md, by
              simp [processNoteM, aiChild, hF, hC, hT, hL, hI]⟩

/-- After `runCore` returns, the note's status row holds `complete` or
`failed`, provided the catch-path status write does not itself throw. -/
theorem runCore_status (llm : LlmOracle) (fp : FailPlan) (s1 : DbState) (i : Nat)
    (k : ProcessType) (newId now : Nat) (x0 : Item)
    (hx : findItem s1 i = some x0) (hfp : fp.failedFail = false) :
    ∃ st, statusIn (runCore llm fp s1 i k newId now).2 i = some (some st) ∧
      (st = .complete ∨ st = .failed) := by
  unfold runCore
  rcases processNoteM_cases llm fp s1 i k newId now with ⟨m, hE⟩ | ⟨child, hO⟩
  · rw [hE]
    simp only [hfp, Bool.false_eq_true, if_false]
    exact ⟨.failed, statusIn_setStatus s1 i .failed (some m) x0 hx, .inr rfl⟩
  · rw [hO]
    have hx2 : findItem (s1 ++ [child]) i = some x0 := findItem_append_some s1 [child] i x0 hx
    by_cases hcf : fp.completeFail = true
    · simp only [hcf, if_pos rfl, hfp, Bool.false_eq_true, if_false]
      exact ⟨.failed, statusIn_setStatus _ i .failed _ x0 hx2, .inr rfl⟩
    · simp only [hcf, if_false]
      exact ⟨.complete, statusIn_setStatus _ i .complete none x0 hx2, .inl rfl⟩

/-! ### Witness fixtures (small concrete states) -/

/-- A concrete user-note row. -/
def sampleNote (i : Nat) (pid : Option Nat) (st : Option NoteStatus)
    (pk : Option ProcessType) (ct : Option TT) (t : Nat) : Item :=
  { id := i, parent_id := pid, utype := .user, item_type := .note, name := none,
    content := ct, process_type := pk, status := st, error_message := none, created_at := t }

/-- A concrete folder row, with the fields the `POST /folders` insert writes. -/
def sampleFolder (i : Nat) (pid : Option Nat) (t : Nat) : Item :=
  { id := i, parent_id := pid, utype := .user, item_type := .folder,
    name := some ['F'], content := none, process_type := none,
    status := some .complete, error_message := none, created_at := t }

/-- A concrete one-paragraph document. -/
def sampleDoc : TT :=
  tnode .doc none none [tnode .paragraph none none (ttext ['h', 'i'])]

/-! ### C3: conflict on already-processing notes -/

/-- C3 (confirmed): triggering processing on an item whose status is
`processing` is rejected with `Conflict` (409), and the rejected request
changes no state — the returned table is exactly the input table, so the
note's status, error field and the set of items are unchanged. -/
theorem process_on_processing_conflict
    (llm : LlmOracle) (fp : FailPlan) (s : DbState) (i : Nat) (it : Item)
    (k : ProcessType) (newId now : Nat)
    (hf : findItem s i = some it) (hst : it.status = some .processing) :
    processEndpoint llm fp s i (some k) newId now = (.conflict, s) := by
  simp [processEndpoint, hf, hst]

/-- Witness for C3 at a concrete processing note. -/
theorem process_on_processing_conflict_witness :
    findItem [sampleNote 0 none (some .processing) none (some sampleDoc) 0] 0
        = some (sampleNote 0 none (some .processing) none (some sampleDoc) 0) ∧
    processEndpoint (fun _ _ => .ok []) noFail
        [sampleNote 0 none (some .processing) none (some sampleDoc) 0] 0
        (some .research) 1 1
      = (.conflict, [sampleNote 0 none (some .processing) none (some sampleDoc) 0]) :=
  ⟨by decide,
   process_on_processing_conflict (fun _ _ => .ok []) noFail
     [sampleNote 0 none (some .processing) none (some sampleDoc) 0] 0
     (sampleNote 0 none (some .processing) none (some sampleDoc) 0)
     .research 1 1 (by decide) (by decide)⟩

/-! ### C5: fields of a created folder -/

/-- C5 counterexample: creating a folder inserts the row with status
`'complete'`, so a folder does carry a status — the claim that folders carry
no status (status unset at creation) is false at this concrete input. -/
theorem createFolder_inserts_status_complete :
    statusIn (createFolder [] (some ['A']) none 0 0).2 0 = some (some .complete) ∧
    some NoteStatus.complete ≠ (none : Option NoteStatus) := by decide

/-- C5 (amended): a folder created through `POST /folders` carries no
content and no process kind, but its status is set to `'complete'`, not left
unset. -/
theorem createFolder_fields
    (s : DbState) (nm : List Char) (pid : Option Nat) (newId now : Nat)
    (hnm : trimStr nm ≠ []) (hlen : (trimStr nm).length ≤ 255)
    (hpid : pid = none ∨
      ∃ p itP, pid = some p ∧ findItem s p = some itP ∧ itP.item_type = .folder) :
    ∃ it : Item, createFolder s (some nm) pid newId now = (.ok it, s ++ [it]) ∧
      it.item_type = .folder ∧ it.content = none ∧ it.process_type = none ∧
      it.status = some .complete := by
  rcases hpid with rfl | ⟨p, itP, rfl, hP, hPf⟩
  · refine ⟨Item.mk newId none .user .folder (some (trimStr nm)) none none
        (some .complete) none now, ?_, rfl, rfl, rfl, rfl⟩
    simp [createFolder, hnm, Nat.not_lt.mpr hlen]
  · refine ⟨Item.mk newId (some p) .user .folder (some (trimStr nm)) none none
        (some .complete) none now, ?_, rfl, rfl, rfl, rfl⟩
    simp [createFolder, hnm, Nat.not_lt.mpr hlen, hP, hPf]

/-- Witness for C5 (amended) at a concrete creation. -/
theorem createFolder_fields_witness :
    (trimStr ['A'] ≠ [] ∧ (trimStr ['A']).length ≤ 255) ∧
    (∃ it : Item, createFolder [] (some ['A']) none 0 0 = (.ok it, [] ++ [it]) ∧
      it.item_type = .folder ∧ it.content = none ∧ it.process_type = none ∧
      it.status = some .complete) :=
  ⟨by decide, createFolder_fields [] ['A'] none 0 0 (by decide) (by decide) (.inl rfl)⟩

/-! ### C6: ordering of folder contents -/

/-- C6: on a folder holding one child folder (created first) and one child
note (created later), `GET /folders/:id/contents` returns the note before
the folder — `ORDER BY item_type DESC` compares the strings `'note'` and
`'folder'` and sorts note rows first, contradicting the folders-first
ordering. -/
theorem folderContents_notes_before_folders :
    (folderContents [sampleFolder 0 none 0, sampleFolder 1 (some 0) 1,
        sampleNote 2 (some 0) (some .draft) none (some sampleDoc) 2] 0).1
      = .ok [sampleNote 2 (some 0) (some .draft) none (some sampleDoc) 2,
             sampleFolder 1 (some 0) 1] ∧
    (sampleNote 2 (some 0) (some .draft) none (some sampleDoc) 2).item_type = .note ∧
    (sampleFolder 1 (some 0) 1).item_type = .folder := by decide

/-! ### C10: processing is not restricted by variant -/

/-- C10 (confirmed): triggering processing never rejects on the target's
variant.  Any existing item whose status is not `processing` — the statement
has no hypothesis on `item_type`, so folders and ai-notes are included —
passes validation with a valid kind, has its status set to `processing`, and
when the call returns (all writes succeeding) its status is `complete` or
`failed`. -/
theorem process_any_variant_accepted
    (llm : LlmOracle) (s : DbState) (i : Nat) (it : Item) (k : ProcessType)
    (newId now : Nat)
    (hf : findItem s i = some it) (hst : it.status ≠ some .processing) :
    processEndpoint llm noFail s i (some k) newId now
        = runCore llm noFail (setStatus s i .processing none) i k newId now ∧
    statusIn (setStatus s i .processing none) i = some (some .processing) ∧
    ∃ st, statusIn (processEndpoint llm noFail s i (some k) newId now).2 i
        = some (some st) ∧ (st = .complete ∨ st = .failed) := by
  have h1 : processEndpoint llm noFail s i (some k) newId now
      = runCore llm noFail (setStatus s i .processing none) i k newId now := by
    simp [processEndpoint, hf, hst, noFail]
  refine ⟨h1, statusIn_setStatus s i .processing none it hf, ?_⟩
  rw [h1]
  exact runCore_status llm noFail _ i k newId now _
    (findItem_setStatus s i .processing none it hf) rfl

/-- Witness for C10: processing a folder is accepted and runs. -/
theorem process_any_variant_accepted_witness :
    (findItem [sampleFolder 0 none 0] 0 = some (sampleFolder 0 none 0) ∧
     (sampleFolder 0 none 0).status ≠ some .processing ∧
     (sampleFolder 0 none 0).item_type = .folder) ∧
    (processEndpoint (fun _ _ => .ok []) noFail [sampleFolder 0 none 0] 0
          (some .research) 1 1
        = runCore (fun _ _ => .ok []) noFail
            (setStatus [sampleFolder 0 none 0] 0 .processing none) 0 .research 1 1 ∧
     statusIn (setStatus [sampleFolder 0 none 0] 0 .processing none) 0
        = some (some .processing) ∧
     ∃ st, statusIn (processEndpoint (fun _ _ => .ok []) noFail
            [sampleFolder 0 none 0] 0 (some .research) 1 1).2 0
          = some (some st) ∧ (st = .complete ∨ st = .failed)) :=
  ⟨by decide,
   process_any_variant_accepted (fun _ _ => .ok []) [sampleFolder 0 none 0] 0
     (sampleFolder 0 none 0) .research 1 1 (by decide) (by decide)⟩

/-! ### C7: terminal status after a run -/

/-- C7 (amended): for a call that passes validation and starts a run, if the
initial `processing` write and the catch-path `failed` write succeed, then
the note's status when the call returns is `complete` or `failed` — even
when inserting the child or writing `complete` fails.  (The companion
counterexample shows the note stays `processing` when the `failed` write
itself throws, refuting the unconditional claim.)  Both the process and the
retry endpoint are covered. -/
theorem run_leaves_terminal_status
    (llm : LlmOracle) (fp : FailPlan) (s : DbState) (i : Nat) (it : Item)
    (k : ProcessType) (newId now : Nat) (hf : findItem s i = some it)
    (hp : fp.procFail = false) (hff : fp.failedFail = false) :
    (it.status ≠ some .processing →
      ∃ st, statusIn (processEndpoint llm fp s i (some k) newId now).2 i
          = some (some st) ∧ (st = .complete ∨ st = .failed)) ∧
    (it.status = some .failed → it.process_type = some k →
      ∃ st, statusIn (retryEndpoint llm fp s i newId now).2 i
          = some (some st) ∧ (st = .complete ∨ st = .failed)) := by
  constructor
  · intro hst
    have h1 : processEndpoint llm fp s i (some k) newId now
        = runCore llm fp (setStatus s i .processing none) i k newId now := by
      simp [processEndpoint, hf, hst, hp]
    rw [h1]
    exact runCore_status llm fp _ i k newId now _
      (findItem_setStatus s i .processing none it hf) hff
  · intro hst hpk
    have h1 : retryEndpoint llm fp s i newId now
        = runCore llm fp (setStatus s i .processing none) i k newId now := by
      simp [retryEndpoint, hf, hst, hpk, hp]
    rw [h1]
    exact runCore_status llm fp _ i k newId now _
      (findItem_setStatus s i .processing none it hf) hff

/-- Witness for C7 (amended) at a concrete draft note whose generation
fails. -/
theorem run_leaves_terminal_status_witness :
    (findItem [sampleNote 0 none (some .draft) none (some sampleDoc) 0] 0
        = some (sampleNote 0 none (some .draft) none (some sampleDoc) 0)) ∧
    ((sampleNote 0 none (some .draft) none (some sampleDoc) 0).status
        ≠ some .processing →
      ∃ st, statusIn (processEndpoint (fun _ _ => .error ['b']) noFail
            [sampleNote 0 none (some .draft) none (some sampleDoc) 0] 0
            (some .research) 1 1).2 0
          = some (some st) ∧ (st = .complete ∨ st = .failed)) :=
  ⟨by decide,
   (run_leaves_terminal_status (fun _ _ => .error ['b']) noFail
     [sampleNote 0 none (some .draft) none (some sampleDoc) 0] 0
     (sampleNote 0 none (some .draft) none (some sampleDoc) 0)
     .research 1 1 (by decide) rfl rfl).1⟩

/-- C7 counterexample: when the catch-path `failed` status write throws, the
call returns (500 from the outer catch) with the note's status still
`processing` — the unconditional claim fails when the status update itself
fails. -/
theorem run_can_leave_processing :
    (processEndpoint (fun _ _ => .error ['b']) ⟨false, false, false, true⟩
        [sampleNote 0 none (some .draft) none (some sampleDoc) 0] 0
        (some .research) 1 1).1 = .internalError msgUpdateFail ∧
    statusIn (processEndpoint (fun _ _ => .error ['b']) ⟨false, false, false, true⟩
        [sampleNote 0 none (some .draft) none (some sampleDoc) 0] 0
        (some .research) 1 1).2 0 = some (some .processing) := by decide

/-! ### C8: what a successful run inserts -/

/-- C8: a successful run inserts exactly one child row whose parent is the
processed note, whose content is the converted generated document, whose
process kind is the requested kind and whose status is `complete`, and the
original note ends `complete` — but the inserted child's variant is `note`
(the `item_type` column default, since `noteQueries.create` never sets
`item_type`), not `ai-note` as the claim states. -/
theorem processRun_inserts_note_variant :
    (processEndpoint (fun _ _ => .ok ['L', 'i', 'n', 'e']) noFail
        [sampleNote 0 none (some .draft) none (some sampleDoc) 0] 0
        (some .summarize) 5 7).1 = .okRun 5 ∧
    (processEndpoint (fun _ _ => .ok ['L', 'i', 'n', 'e']) noFail
        [sampleNote 0 none (some .draft) none (some sampleDoc) 0] 0
        (some .summarize) 5 7).2.length = 2 ∧
    findItem (processEndpoint (fun _ _ => .ok ['L', 'i', 'n', 'e']) noFail
        [sampleNote 0 none (some .draft) none (some sampleDoc) 0] 0
        (some .summarize) 5 7).2 5
      = some (aiChild 0 .summarize 5 7 ['L', 'i', 'n', 'e']) ∧
    (aiChild 0 .summarize 5 7 ['L', 'i', 'n', 'e']).parent_id = some 0 ∧
    (aiChild 0 .summarize 5 7 ['L', 'i', 'n', 'e']).content
      = some (markdownToTiptap ['L', 'i', 'n', 'e']) ∧
    (aiChild 0 .summarize 5 7 ['L', 'i', 'n', 'e']).process_type = some .summarize ∧
    (aiChild 0 .summarize 5 7 ['L', 'i', 'n', 'e']).status = some .complete ∧
    (aiChild 0 .summarize 5 7 ['L', 'i', 'n', 'e']).item_type = .note ∧
    ItemType.note ≠ ItemType.aiNote ∧
    statusIn (processEndpoint (fun _ _ => .ok ['L', 'i', 'n', 'e']) noFail
        [sampleNote 0 none (some .draft) none (some sampleDoc) 0] 0
        (some .summarize) 5 7).2 0 = some (some .complete) := by decide

/-! ### C4: retry semantics -/

/-- C4 (amended): retry on a note whose status is not `failed` is rejected;
retry on a failed note with no stored process kind is rejected with 400 —
the kind of the failed run is never stored on the note, so this is the case
for every user-created note; and retry on a failed note with a stored kind
re-runs the whole pipeline using that stored (creation-time) kind. -/
theorem retry_uses_stored_kind
    (llm : LlmOracle) (fp : FailPlan) (s : DbState) (i : Nat) (it : Item)
    (newId now : Nat) (hf : findItem s i = some it) :
    (it.status ≠ some .failed → retryEndpoint llm fp s i newId now = (.notFailed, s)) ∧
    (it.status = some .failed → it.process_type = none →
      retryEndpoint llm fp s i newId now = (.noKind, s)) ∧
    (∀ k, it.status = some .failed → it.process_type = some k → fp.procFail = false →
      retryEndpoint llm fp s i newId now
        = runCore llm fp (setStatus s i .processing none) i k newId now) := by
  refine ⟨fun hst => ?_, fun hst hpk => ?_, fun k hst hpk hp => ?_⟩
  · simp [retryEndpoint, hf, hst]
  · simp [retryEndpoint, hf, hst, hpk]
  · simp [retryEndpoint, hf, hst, hpk, hp]

/-- Witness for C4 (amended) at a failed note carrying a stored kind. -/
theorem retry_uses_stored_kind_witness :
    (findItem [sampleNote 0 none (some .failed) (some .research) (some sampleDoc) 0] 0
        = some (sampleNote 0 none (some .failed) (some .research) (some sampleDoc) 0)) ∧
    (∀ k, (sampleNote 0 none (some .failed) (some .research) (some sampleDoc) 0).status
          = some .failed →
      (sampleNote 0 none (some .failed) (some .research) (some sampleDoc) 0).process_type
          = some k →
      noFail.procFail = false →
      retryEndpoint (fun _ _ => .ok []) noFail
          [sampleNote 0 none (some .failed) (some .research) (some sampleDoc) 0] 0 1 1
        = runCore (fun _ _ => .ok []) noFail
            (setStatus [sampleNote 0 none (some .failed) (some .research) (some sampleDoc) 0]
              0 .processing none) 0 k 1 1) :=
  ⟨by decide,
   (retry_uses_stored_kind (fun _ _ => .ok []) noFail
     [sampleNote 0 none (some .failed) (some .research) (some sampleDoc) 0] 0
     (sampleNote 0 none (some .failed) (some .research) (some sampleDoc) 0)
     1 1 (by decide)).2.2⟩

/-- C4 counterexample: a draft note processed with kind `research` whose run
fails ends `failed` with no stored process kind, and the subsequent retry is
rejected with 400 (`noKind`) instead of re-running the pipeline with the
failed run's kind. -/
theorem retry_rejected_after_failed_run :
    statusIn (processEndpoint (fun _ _ => .error ['b']) noFail
        [sampleNote 0 none (some .draft) none (some sampleDoc) 0] 0
        (some .research) 1 1).2 0 = some (some .failed) ∧
    (findItem (processEndpoint (fun _ _ => .error ['b']) noFail
        [sampleNote 0 none (some .draft) none (some sampleDoc) 0] 0
        (some .research) 1 1).2 0).map (·.process_type) = some none ∧
    retryEndpoint (fun _ _ => .error ['b']) noFail
        (processEndpoint (fun _ _ => .error ['b']) noFail
          [sampleNote 0 none (some .draft) none (some sampleDoc) 0] 0
          (some .research) 1 1).2 0 2 2
      = (.noKind, (processEndpoint (fun _ _ => .error ['b']) noFail
          [sampleNote 0 none (some .draft) none (some sampleDoc) 0] 0
          (some .research) 1 1).2) := by decide

/-! ### C1: moves into the own subtree -/

/-- Upward reachability along parent pointers: `ReachesUp s x a` holds when
following `parent_id` links from item `x` (inclusively) reaches `a`.  So `d`
is `a` itself or a current descendant of `a` exactly when `ReachesUp s d a`. -/
inductive ReachesUp (s : DbState) : Nat → Nat → Prop where
  | refl (x : Nat) : ReachesUp s x x
  | step (x p a : Nat) (it : Item) (hf : findItem s x = some it)
      (hp : it.parent_id = some p) (h : ReachesUp s p a) : ReachesUp s x a

/-- The ancestor walk of `checkCircularReference` reports a cycle whenever
the proposed parent reaches the moved folder upward, for every fuel value
(exhausted fuel fails closed to `true`). -/
theorem ccrAux_of_reaches (s : DbState) (a d : Nat) (h : ReachesUp s d a) :
    ∀ fuel, ccrAux s a (some d) fuel = true := by
  induction h with
  | refl x =>
    intro fuel
    cases fuel with
    | zero => rfl
    | succ f => simp [ccrAux]
  | step x p a2 it hf hp h ih =>
    intro fuel
    cases fuel with
    | zero => rfl
    | succ f =>
      by_cases hx : x = a2
      · simp [ccrAux, hx]
      · simp only [ccrAux, if_neg hx, hf, hp]
        exact ih f

/-- C1 (amended): moving folder A — through `POST /folders/:id/move` or
`PATCH /folders/:id` — under itself or under any current descendant always
fails and leaves the table unchanged; the error is the self-parent rejection
for A itself, `CircularReference` when the proposed parent is a descendant
folder, and the target/parent-must-be-a-folder rejection (`InvalidVariant`)
when the proposed parent is a descendant note or ai-note. -/
theorem move_under_descendant_rejected
    (s : DbState) (a d : Nat) (itA : Item)
    (hA : findItem s a = some itA) (hAf : itA.item_type = .folder)
    (hreach : ReachesUp s d a) :
    ∃ e e2,
      moveItemRoute s a (some d) = (.err e, s) ∧
      patchFolder s a none (some (some d)) = (.err e2, s) ∧
      ((d = a ∧ e = .ownParent ∧ e2 = .ownParent) ∨
       (d ≠ a ∧ ∃ itD, findItem s d = some itD ∧
         ((itD.item_type = .folder ∧ e = .circular ∧ e2 = .circular) ∨
          (itD.item_type ≠ .folder ∧ e = .targetNotFolder ∧ e2 = .parentNotFolder)))) := by
  by_cases hda : d = a
  · subst hda
    refine ⟨.ownParent, .ownParent, ?_, ?_, .inl ⟨rfl, rfl, rfl⟩⟩
    · simp [moveItemRoute, hA]
    · simp [patchFolder, hA, hAf]
  · have hccr : checkCircularReference s a d = true := ccrAux_of_reaches s a d hreach 100
    rcases hreach with _ | ⟨x, p, a2, itD, hfD, hpD, h2⟩
    · exact absurd rfl hda
    · by_cases hDf : itD.item_type = .folder
      · refine ⟨.circular, .circular, ?_, ?_,
          .inr ⟨hda, itD, hfD, .inl ⟨hDf, rfl, rfl⟩⟩⟩
        · simp [moveItemRoute, hA, hda, hfD, hDf, hAf, hccr]
        · simp [patchFolder, hA, hAf, hda, hfD, hDf, hccr]
      · refine ⟨.targetNotFolder, .parentNotFolder, ?_, ?_,
          .inr ⟨hda, itD, hfD, .inr ⟨hDf, rfl, rfl⟩⟩⟩
        · simp [moveItemRoute, hA, hda, hfD, hDf]
        · simp [patchFolder, hA, hAf, hda, hfD, hDf]

/-- C1 counterexample: proposing a descendant note of folder A as the new
parent fails with the target-must-be-a-folder rejection (`InvalidVariant`),
not with `CircularReference`, so 'always fails with CircularReference' is
false as stated (the tree is still left unchanged). -/
theorem move_under_note_child_not_circular :
    moveItemRoute [sampleFolder 0 none 0,
        sampleNote 1 (some 0) (some .draft) none (some sampleDoc) 1] 0 (some 1)
      = (.err .targetNotFolder,
         [sampleFolder 0 none 0,
          sampleNote 1 (some 0) (some .draft) none (some sampleDoc) 1]) ∧
    Err.targetNotFolder ≠ Err.ownParent ∧ Err.targetNotFolder ≠ Err.circular ∧
    ReachesUp [sampleFolder 0 none 0,
        sampleNote 1 (some 0) (some .draft) none (some sampleDoc) 1] 1 0 :=
  ⟨by decide, by decide, by decide,
   ReachesUp.step 1 0 0 (sampleNote 1 (some 0) (some .draft) none (some sampleDoc) 1)
     (by decide) rfl (ReachesUp.refl 0)⟩

/-- Witness for C1 (amended): moving a folder under its child folder. -/
theorem move_under_descendant_rejected_witness :
    (findItem [sampleFolder 0 none 0, sampleFolder 1 (some 0) 1] 0
        = some (sampleFolder 0 none 0)) ∧
    (∃ e e2,
      moveItemRoute [sampleFolder 0 none 0, sampleFolder 1 (some 0) 1] 0 (some 1)
        = (.err e, [sampleFolder 0 none 0, sampleFolder 1 (some 0) 1]) ∧
      patchFolder [sampleFolder 0 none 0, sampleFolder 1 (some 0) 1] 0 none (some (some 1))
        = (.err e2, [sampleFolder 0 none 0, sampleFolder 1 (some 0) 1]) ∧
      ((1 = 0 ∧ e = .ownParent ∧ e2 = .ownParent) ∨
       ((1 : Nat) ≠ 0 ∧ ∃ itD,
          findItem [sampleFolder 0 none 0, sampleFolder 1 (some 0) 1] 1 = some itD ∧
          ((itD.item_type = .folder ∧ e = .circular ∧ e2 = .circular) ∨
           (itD.item_type ≠ .folder ∧ e = .targetNotFolder ∧ e2 = .parentNotFolder))))) :=
  ⟨by decide,
   move_under_descendant_rejected [sampleFolder 0 none 0, sampleFolder 1 (some 0) 1]
     0 1 (sampleFolder 0 none 0) (by decide) rfl
     (ReachesUp.step 1 0 0 (sampleFolder 1 (some 0) 1) (by decide) rfl (ReachesUp.refl 0))⟩

/-! ### C2: cascade delete -/

theorem mem_childStep_of_mem (s : DbState) (acc : List Nat) (a : Nat) (h : a ∈ acc) :
    a ∈ childStep s acc :=
  List.mem_append_left _ h

theorem mem_delSetAux_of_mem (s : DbState) :
    ∀ (n : Nat) (acc : List Nat) (a : Nat), a ∈ acc → a ∈ delSetAux s n acc := by
  intro n
  induction n with
  | zero => intro acc a h; exact h
  | succ n ih => intro acc a h; exact ih (childStep s acc) a (mem_childStep_of_mem s acc a h)

theorem mem_childStep_of_parent (s : DbState) (acc : List Nat) (it : Item)
    (hit : it ∈ s) (p : Nat) (hp : it.parent_id = some p) (hpm : p ∈ acc) :
    it.id ∈ childStep s acc := by
  by_cases h : it.id ∈ acc
  · exact mem_childStep_of_mem s acc it.id h
  · refine List.mem_append_right _ ?_
    refine List.mem_map.mpr ⟨it, List.mem_filter.mpr ⟨hit, ?_⟩, rfl⟩
    rw [hp]
    simp [h, hpm]

/-- The count of rows not yet marked deleted. -/
def remCount (s : DbState) (acc : List Nat) : Nat :=
  (s.filter (fun it => decide (it.id ∉ acc))).length

theorem filter_length_mono (P Q : Item → Bool) :
    ∀ s : List Item, (∀ x ∈ s, Q x = true → P x = true) →
      (s.filter Q).length ≤ (s.filter P).length := by
  intro s
  induction s with
  | nil => intro _; exact Nat.le_refl _
  | cons x xs ih =>
    intro himp
    have ihx := ih (fun y hy => himp y (List.mem_cons_of_mem x hy))
    cases hq : Q x with
    | true =>
      have hp := himp x (List.mem_cons_self x xs) hq
      simp only [List.filter_cons, hq, hp, if_pos rfl]
      exact Nat.succ_le_succ ihx
    | false =>
      simp only [List.filter_cons, hq]
      cases hp : P x with
      | true => simp only [if_pos rfl]; exact Nat.le_succ_of_le ihx
      | false => simp only [Bool.false_eq_true, if_false]; exact ihx

theorem filter_length_lt (P Q : Item → Bool) (s : List Item)
    (himp : ∀ x ∈ s, Q x = true → P x = true)
    (x0 : Item) (hx0 : x0 ∈ s) (hP : P x0 = true) (hQ : Q x0 = false) :
    (s.filter Q).length < (s.filter P).length := by
  induction s with
  | nil => cases hx0
  | cons y ys ih =>
    have himp2 : ∀ x ∈ ys, Q x = true → P x = true :=
      fun x hx => himp x (List.mem_cons_of_mem y hx)
    rcases List.mem_cons.mp hx0 with rfl | hmem
    · simp only [List.filter_cons, hP, hQ, if_pos rfl, Bool.false_eq_true, if_false]
      exact Nat.lt_succ_of_le (filter_length_mono P Q ys himp2)
    · have ihy := ih himp2 hmem
      cases hq : Q y with
      | true =>
        have hp := himp y (List.mem_cons_self y ys) hq
        simp only [List.filter_cons, hq, hp, if_pos rfl]
        exact Nat.succ_lt_succ ihy
      | false =>
        simp only [List.filter_cons, hq, Bool.false_eq_true, if_false]
        cases hp : P y with
        | true => simp only [if_pos rfl]; exact Nat.lt_succ_of_lt ihy
        | false => simp only [Bool.false_eq_true, if_false]; exact ihy

theorem childStep_eq_or_lt (s : DbState) (acc : List Nat) :
    childStep s acc = acc ∨ remCount s (childStep s acc) < remCount s acc := by
  cases hE : s.filter (fun it =>
      decide (it.id ∉ acc) && match it.parent_id with
        | some p => decide (p ∈ acc)
        | none => false) with
  | nil =>
    left
    unfold childStep
    rw [hE]
    simp
  | cons it0 rest =>
    right
    have hmem : it0 ∈ s.filter (fun it =>
        decide (it.id ∉ acc) && match it.parent_id with
          | some p => decide (p ∈ acc)
          | none => false) := by rw [hE]; exact List.mem_cons_self it0 rest
    have hit0s : it0 ∈ s := List.mem_of_mem_filter hmem
    have hpred := List.of_mem_filter hmem
    have hnotacc : decide (it0.id ∉ acc) = true := (Bool.and_eq_true _ _ |>.mp hpred).1
    have hinstep : it0.id ∈ childStep s acc := by
      rcases hpid : it0.parent_id with _ | p
      · exfalso
        have := (Bool.and_eq_true _ _ |>.mp hpred).2
        rw [hpid] at this
        cases this
      · have hpp := (Bool.and_eq_true _ _ |>.mp hpred).2
        rw [hpid] at hpp
        exact mem_childStep_of_parent s acc it0 hit0s p hpid (of_decide_eq_true hpp)
    refine filter_length_lt _ _ s ?_ it0 hit0s hnotacc ?_
    · intro x _ hq
      have hx := of_decide_eq_true hq
      exact decide_eq_true (fun hmem2 => hx (mem_childStep_of_mem s acc x.id hmem2))
    · simpa using hinstep

theorem delSetAux_fixed (s : DbState) :
    ∀ (n : Nat) (acc : List Nat), childStep s acc = acc → delSetAux s n acc = acc := by
  intro n
  induction n with
  | zero => intro acc _; rfl
  | succ n ih => intro acc h; show delSetAux s n (childStep s acc) = acc; rw [h]; exact ih acc h

theorem childStep_delSetAux (s : DbState) :
    ∀ (n : Nat) (acc : List Nat), remCount s acc ≤ n →
      childStep s (delSetAux s n acc) = delSetAux s n acc := by
  intro n
  induction n with
  | zero =>
    intro acc h
    have hnil : s.filter (fun it => decide (it.id ∉ acc)) = [] :=
      List.length_eq_zero.mp (Nat.le_zero.mp h)
    have hall : ∀ it ∈ s, it.id ∈ acc := by
      intro it hit
      by_contra hq
      have : it ∈ s.filter (fun it => decide (it.id ∉ acc)) :=
        List.mem_filter.mpr ⟨hit, decide_eq_true hq⟩
      rw [hnil] at this
      cases this
    show childStep s acc = acc
    unfold childStep
    have : s.filter (fun it =>
        decide (it.id ∉ acc) && match it.parent_id with
          | some p => decide (p ∈ acc)
          | none => false) = [] := by
      apply List.filter_eq_nil_iff.mpr
      intro it hit
      simp [hall it hit]
    rw [this]
    simp
  | succ n ih =>
    intro acc h
    show childStep s (delSetAux s n (childStep s acc)) = delSetAux s n (childStep s acc)
    rcases childStep_eq_or_lt s acc with hfix | hlt
    · rw [hfix, delSetAux_fixed s n acc hfix]
      exact hfix
    · exact ih (childStep s acc) (Nat.lt_succ_iff.mp (Nat.lt_of_lt_of_le hlt h))

theorem delSet_closed (s : DbState) (x : Nat) :
    childStep s (delSet s x) = delSet s x :=
  childStep_delSetAux s s.length [x] (List.length_filter_le _ _)

theorem mem_delSet_self (s : DbState) (x : Nat) : x ∈ delSet s x :=
  mem_delSetAux_of_mem s s.length [x] x (List.mem_singleton.mpr rfl)

theorem mem_delSet_parent (s : DbState) (x : Nat) (it : Item) (hit : it ∈ s)
    (p : Nat) (hp : it.parent_id = some p) (hpm : p ∈ delSet s x) :
    it.id ∈ delSet s x := by
  have h := mem_childStep_of_parent s (delSet s x) it hit p hp hpm
  rwa [delSet_closed] at h

theorem reaches_mem_delSet (s : DbState) (x y : Nat) (h : ReachesUp s y x) :
    y ∈ delSet s x := by
  induction h with
  | refl z => exact mem_delSet_self s z
  | step x2 p a it hf hpid h ih =>
    have hitmem : it ∈ s := findItem_mem s x2 it hf
    have hid : it.id = x2 := findItem_id s x2 it hf
    have h2 := mem_delSet_parent s a it hitmem p hpid ih
    rwa [hid] at h2

/-- C2 (confirmed): deleting item X through `DELETE /notes/:id` (the
cascading foreign-key delete) removes X and every item whose ancestor chain
includes X, transitively, and afterwards no remaining item has a `parent_id`
referencing a removed item. -/
theorem delete_cascade_complete
    (s : DbState) (x : Nat) (itx : Item) (hf : findItem s x = some itx) :
    deleteNoteRoute s x = (.ok (), cascadeDelete s x) ∧
    (∀ it : Item, it ∈ cascadeDelete s x → it.id ≠ x) ∧
    (∀ it : Item, it ∈ s → ReachesUp s it.id x → it ∉ cascadeDelete s x) ∧
    (∀ it : Item, it ∈ cascadeDelete s x →
      ∀ z : Item, z ∈ s → z ∉ cascadeDelete s x → it.parent_id ≠ some z.id) := by
  refine ⟨by simp [deleteNoteRoute, hf], ?_, ?_, ?_⟩
  · intro it hmem hid
    have hpred := List.of_mem_filter hmem
    rw [hid] at hpred
    exact (of_decide_eq_true hpred) (mem_delSet_self s x)
  · intro it hmem hreach hcontra
    have hpred := List.of_mem_filter hcontra
    exact (of_decide_eq_true hpred) (reaches_mem_delSet s x it.id hreach)
  · intro it hmem z hz hznot hpe
    have hpred := List.of_mem_filter hmem
    have hnot : it.id ∉ delSet s x := of_decide_eq_true hpred
    have hzin : z.id ∈ delSet s x := by
      by_contra hq
      exact hznot (List.mem_filter.mpr ⟨hz, decide_eq_true hq⟩)
    have hitmem : it ∈ s := List.mem_of_mem_filter hmem
    exact hnot (mem_delSet_parent s x it hitmem z.id hpe hzin)

/-- Witness for C2: deleting a folder with a child note and a grandchild
note removes all three and keeps the unrelated root note. -/
theorem delete_cascade_complete_witness :
    (findItem [sampleFolder 0 none 0,
        sampleNote 1 (some 0) (some .draft) none (some sampleDoc) 1,
        sampleNote 2 (some 1) (some .draft) none (some sampleDoc) 2,
        sampleNote 3 none (some .draft) none (some sampleDoc) 3] 0
      = some (sampleFolder 0 none 0) ∧
     cascadeDelete [sampleFolder 0 none 0,
        sampleNote 1 (some 0) (some .draft) none (some sampleDoc) 1,
        sampleNote 2 (some 1) (some .draft) none (some sampleDoc) 2,
        sampleNote 3 none (some .draft) none (some sampleDoc) 3] 0
      = [sampleNote 3 none (some .draft) none (some sampleDoc) 3]) ∧
    (∀ it : Item, it ∈ cascadeDelete [sampleFolder 0 none 0,
        sampleNote 1 (some 0) (some .draft) none (some sampleDoc) 1,
        sampleNote 2 (some 1) (some .draft) none (some sampleDoc) 2,
        sampleNote 3 none (some .draft) none (some sampleDoc) 3] 0 → it.id ≠ 0) :=
  ⟨by decide,
   (delete_cascade_complete [sampleFolder 0 none 0,
      sampleNote 1 (some 0) (some .draft) none (some sampleDoc) 1,
      sampleNote 2 (some 1) (some .draft) none (some sampleDoc) 2,
      sampleNote 3 none (some .draft) none (some sampleDoc) 3] 0
      (sampleFolder 0 none 0) (by decide)).2.1⟩

/-! ### C9: string lemmas for trim and split -/

theorem ltrim_append (a b : List Char) (h : ltrim a ≠ []) :
    ltrim (a ++ b) = ltrim a ++ b := by
  induction a with
  | nil => simp [ltrim] at h
  | cons c cs ih =>
    cases hc : isWsChar c with
    | true =>
      simp only [ltrim, List.cons_append, List.dropWhile_cons, hc, if_pos rfl] at h ⊢
      exact ih h
    | false =>
      simp only [ltrim, List.cons_append, List.dropWhile_cons, hc, Bool.false_eq_true, if_false]

theorem ltrim_eq_nil_iff (l : List Char) :
    ltrim l = [] ↔ ∀ c ∈ l, isWsChar c = true :=
  List.dropWhile_eq_nil_iff

theorem ltrim_head_not_ws (l : List Char) (c : Char) (cs : List Char)
    (h : ltrim l = c :: cs) : isWsChar c = false := by
  induction l with
  | nil => simp [ltrim] at h
  | cons d ds ih =>
    cases hd : isWsChar d with
    | true =>
      simp only [ltrim, List.dropWhile_cons, hd, if_pos rfl] at h
      exact ih h
    | false =>
      simp only [ltrim, List.dropWhile_cons, hd, Bool.false_eq_true, if_false] at h
      cases h
      exact hd

theorem ltrim_ws_append (w x : List Char) (hw : ∀ c ∈ w, isWsChar c = true) :
    ltrim (w ++ x) = ltrim x := by
  induction w with
  | nil => rfl
  | cons c cs ih =>
    have hc := hw c (List.mem_cons_self c cs)
    simp only [ltrim, List.cons_append, List.dropWhile_cons, hc, if_pos rfl]
    exact ih fun d hd => hw d (List.mem_cons_of_mem c hd)

theorem ltrim_of_head_not_ws (c : Char) (cs : List Char) (hc : isWsChar c = false) :
    ltrim (c :: cs) = c :: cs := by
  simp only [ltrim, List.dropWhile_cons, hc, Bool.false_eq_true, if_false]

theorem ltrim_idem (l : List Char) : ltrim (ltrim l) = ltrim l := by
  cases hL : ltrim l with
  | nil => rfl
  | cons c cs => exact ltrim_of_head_not_ws c cs (ltrim_head_not_ws l c cs hL)

theorem rtrim_def (l : List Char) : rtrim l = (ltrim l.reverse).reverse := rfl

theorem rtrim_eq_nil_iff (l : List Char) :
    rtrim l = [] ↔ ∀ c ∈ l, isWsChar c = true := by
  rw [rtrim_def, List.reverse_eq_nil_iff, ltrim_eq_nil_iff]
  constructor
  · intro h c hc; exact h c (List.mem_reverse.mpr hc)
  · intro h c hc; exact h c (List.mem_reverse.mp hc)

theorem rtrim_append (a b : List Char) (h : rtrim b ≠ []) :
    rtrim (a ++ b) = a ++ rtrim b := by
  have hb : ltrim b.reverse ≠ [] := by
    intro hq
    exact h (by rw [rtrim_def, hq]; rfl)
  rw [rtrim_def, List.reverse_append, ltrim_append _ _ hb, List.reverse_append,
    List.reverse_reverse, rtrim_def]

theorem rtrim_append_nl (a : List Char) : rtrim (a ++ ['\n']) = rtrim a := by
  rw [rtrim_def, List.reverse_append]
  show (ltrim ('\n' :: a.reverse)).reverse = rtrim a
  rw [show ltrim ('\n' :: a.reverse) = ltrim a.reverse from by
    simp [ltrim, List.dropWhile_cons, isWsChar], rtrim_def]

theorem rtrim_idem (l : List Char) : rtrim (rtrim l) = rtrim l := by
  rw [rtrim_def l, rtrim_def ((ltrim l.reverse).reverse), List.reverse_reverse, ltrim_idem]

theorem rtrim_prefix (l : List Char) :
    ∃ r, l = rtrim l ++ r ∧ ∀ c ∈ r, isWsChar c = true := by
  refine ⟨(l.reverse.takeWhile isWsChar).reverse, ?_, ?_⟩
  · have h2 := congrArg List.reverse (List.takeWhile_append_dropWhile isWsChar l.reverse)
    rw [List.reverse_append, List.reverse_reverse] at h2
    exact h2.symm
  · intro c hc
    exact List.mem_takeWhile_imp (List.mem_reverse.mp hc)

theorem trim_ltrim (l : List Char) : trimStr (ltrim l) = trimStr l := by
  rw [trimStr, trimStr, ltrim_idem]

theorem ltrim_ne_nil_of_trim (l : List Char) (h : trimStr l ≠ []) : ltrim l ≠ [] := by
  intro hq
  exact h (by rw [trimStr, hq]; rfl)

theorem rtrim_ne_nil_of_head (c : Char) (cs : List Char) (hc : isWsChar c = false) :
    rtrim (c :: cs) ≠ [] := by
  intro hq
  have := (rtrim_eq_nil_iff (c :: cs)).mp hq c (List.mem_cons_self c cs)
  rw [hc] at this
  cases this

theorem trim_rtrim (l : List Char) : trimStr (rtrim l) = trimStr l := by
  cases hL : ltrim l with
  | nil =>
    have hall := (ltrim_eq_nil_iff l).mp hL
    have h1 : rtrim l = [] := (rtrim_eq_nil_iff l).mpr hall
    rw [h1, trimStr, trimStr, hL]
    rfl
  | cons c cs =>
    have hc : isWsChar c = false := ltrim_head_not_ws l c cs hL
    have hdecomp : l.takeWhile isWsChar ++ ltrim l = l :=
      List.takeWhile_append_dropWhile isWsChar l
    have hrl : rtrim (ltrim l) ≠ [] := by
      rw [hL]; exact rtrim_ne_nil_of_head c cs hc
    have h2 : rtrim l = l.takeWhile isWsChar ++ rtrim (ltrim l) := by
      conv_lhs => rw [← hdecomp]
      exact rtrim_append _ _ hrl
    have hwsall : ∀ d ∈ l.takeWhile isWsChar, isWsChar d = true :=
      fun d hd => List.mem_takeWhile_imp hd
    have hhead : ∃ ds2, rtrim (ltrim l) = c :: ds2 := by
      rcases rtrim_prefix (ltrim l) with ⟨r, hr, _⟩
      rcases hE : rtrim (ltrim l) with _ | ⟨d, ds⟩
      · exact absurd hE hrl
      · rw [hL] at hr hE
        rw [hE] at hr
        injection hr with h1 h2
        exact ⟨ds, by rw [h1]⟩
    rcases hhead with ⟨ds, hds⟩
    have hfinal : trimStr (rtrim l) = rtrim (rtrim (ltrim l)) := by
      rw [trimStr, h2, ltrim_ws_append _ _ hwsall, hds, ltrim_of_head_not_ws c ds hc, ← hds]
    rw [hfinal, rtrim_idem, trimStr]

theorem nlFree_ltrim (l : List Char) (h : '\n' ∉ l) : '\n' ∉ ltrim l :=
  fun hm => h ((List.dropWhile_sublist _).subset hm)

theorem nlFree_rtrim (l : List Char) (h : '\n' ∉ l) : '\n' ∉ rtrim l := by
  intro hm
  rw [rtrim_def] at hm
  exact h (List.mem_reverse.mp ((List.dropWhile_sublist _).subset (List.mem_reverse.mp hm)))

theorem splitNl_append (a b : List Char) (h : '\n' ∉ a) :
    splitNl (a ++ '\n' :: b) = a :: splitNl b := by
  induction a with
  | nil => simp [splitNl]
  | cons c cs ih =>
    have hc : ¬(c = '\n') := fun hh => h (by rw [hh]; exact List.mem_cons_self _ _)
    have hcs : '\n' ∉ cs := fun hm => h (List.mem_cons_of_mem c hm)
    simp only [List.cons_append, splitNl, if_neg hc, List.append_eq]
    rw [ih hcs]

theorem splitNl_single (a : List Char) (h : '\n' ∉ a) : splitNl a = [a] := by
  induction a with
  | nil => rfl
  | cons c cs ih =>
    have hc : ¬(c = '\n') := fun hh => h (by rw [hh]; exact List.mem_cons_self _ _)
    have hcs : '\n' ∉ cs := fun hm => h (List.mem_cons_of_mem c hm)
    simp only [splitNl, if_neg hc, ih hcs]

/-! ### C9: block join framework -/

/-- The text contributed by a block list during extraction: each block's
text followed by one newline. -/
def joinNlAll : List (List Char) → List Char
  | [] => []
  | t :: ts => t ++ '\n' :: joinNlAll ts

/-- The same join with the trailing newline removed and the last text
right-trimmed (the effect of the final `.trim()` on the right end). -/
def joinLastR : List (List Char) → List Char
  | [] => []
  | [t] => rtrim t
  | t :: u :: ts => t ++ '\n' :: joinLastR (u :: ts)

/-- A text list with its last element right-trimmed. -/
def withLastR : List (List Char) → List (List Char)
  | [] => []
  | [t] => [rtrim t]
  | t :: u :: ts => t :: withLastR (u :: ts)

theorem length_withLastR (ts : List (List Char)) :
    (withLastR ts).length = ts.length := by
  induction ts with
  | nil => rfl
  | cons t ts ih =>
    cases ts with
    | nil => rfl
    | cons u ts2 => simpa [withLastR] using ih

theorem mem_withLastR (ts : List (List Char)) (l : List Char)
    (h : l ∈ withLastR ts) : l ∈ ts ∨ ∃ t ∈ ts, l = rtrim t := by
  induction ts with
  | nil => cases h
  | cons t ts ih =>
    cases ts with
    | nil =>
      rcases List.mem_singleton.mp h with rfl
      exact .inr ⟨t, List.mem_singleton.mpr rfl, rfl⟩
    | cons u ts2 =>
      rcases List.mem_cons.mp h with rfl | h2
      · exact .inl (List.mem_cons_self _ _)
      · rcases ih h2 with h3 | ⟨t2, ht2, rfl⟩
        · exact .inl (List.mem_cons_of_mem _ h3)
        · exact .inr ⟨t2, List.mem_cons_of_mem _ ht2, rfl⟩

theorem hasPref_append (p x r : List Char) (h : hasPref p x = true) :
    hasPref p (x ++ r) = true := by
  induction p generalizing x with
  | nil => rfl
  | cons a as ih =>
    cases x with
    | nil => cases h
    | cons c cs =>
      simp only [hasPref, List.cons_append, List.append_eq] at h ⊢
      have h1 := (Bool.and_eq_true _ _ |>.mp h).1
      have h2 := (Bool.and_eq_true _ _ |>.mp h).2
      rw [h1, ih cs h2]
      rfl

theorem isBulletLine_append (x r : List Char) (h : isBulletLine x = true) :
    isBulletLine (x ++ r) = true := by
  unfold isBulletLine at h ⊢
  rcases Bool.or_eq_true _ _ |>.mp h with h1 | h1
  · rw [hasPref_append _ _ r h1]
    rfl
  · rw [hasPref_append _ _ r h1]
    simp

theorem dropWhile_takeWhile_append (p : Char → Bool) (x r : List Char)
    (h : x.dropWhile p ≠ []) :
    (x ++ r).takeWhile p = x.takeWhile p ∧ (x ++ r).dropWhile p = x.dropWhile p ++ r := by
  induction x with
  | nil => simp at h
  | cons c cs ih =>
    cases hp : p c with
    | true =>
      have h2 : cs.dropWhile p ≠ [] := by
        simpa [List.dropWhile_cons, hp] using h
      rcases ih h2 with ⟨h3, h4⟩
      constructor
      · simp [List.takeWhile_cons, hp, h3]
      · simp [List.dropWhile_cons, hp, h4]
    | false =>
      constructor
      · simp [List.takeWhile_cons, hp]
      · simp [List.dropWhile_cons, hp]

theorem isOrderedLine_append (x r : List Char) (h : isOrderedLine x = true) :
    isOrderedLine (x ++ r) = true := by
  unfold isOrderedLine at h ⊢
  have h1 := (Bool.and_eq_true _ _ |>.mp h).1
  have hrest := (Bool.and_eq_true _ _ |>.mp h).2
  have h2 := (Bool.and_eq_true _ _ |>.mp h1).1
  have h3 := (Bool.and_eq_true _ _ |>.mp h1).2
  have hne : x.dropWhile Char.isDigit ≠ [] := by
    intro hq
    rw [hq] at h3
    simp at h3
  rcases dropWhile_takeWhile_append Char.isDigit x r hne with ⟨ht, hd⟩
  rw [ht, hd]
  rcases hE : x.dropWhile Char.isDigit with _ | ⟨e, es⟩
  · exact absurd hE hne
  · rw [hE] at h3 hrest
    cases es with
    | nil => simp [headIsWs] at hrest
    | cons c2 es2 =>
      simp only [List.cons_append, List.head?_cons, List.drop_succ_cons, List.drop_zero] at h3 hrest ⊢
      rw [h2, h3]
      simpa [headIsWs] using hrest

theorem isBulletLine_rtrim_false (l : List Char) (h : isBulletLine l = false) :
    isBulletLine (rtrim l) = false := by
  cases hb : isBulletLine (rtrim l) with
  | false => rfl
  | true =>
    exfalso
    rcases rtrim_prefix l with ⟨r, hr, _⟩
    have h2 := isBulletLine_append (rtrim l) r hb
    rw [← hr, h] at h2
    cases h2

theorem isOrderedLine_rtrim_false (l : List Char) (h : isOrderedLine l = false) :
    isOrderedLine (rtrim l) = false := by
  cases hb : isOrderedLine (rtrim l) with
  | false => rfl
  | true =>
    exfalso
    rcases rtrim_prefix l with ⟨r, hr, _⟩
    have h2 := isOrderedLine_append (rtrim l) r hb
    rw [← hr, h] at h2
    cases h2

theorem trim_ne_nil_rtrim (t : List Char) (h : trimStr t ≠ []) : rtrim t ≠ [] := by
  intro hq
  have h2 := trim_rtrim t
  rw [hq] at h2
  exact h (h2.symm.trans rfl)

theorem joinNl_rtrim_split :
    ∀ ts : List (List Char), ts ≠ [] → (∀ t ∈ ts, trimStr t ≠ [] ∧ '\n' ∉ t) →
      rtrim (joinNlAll ts) = joinLastR ts ∧ joinLastR ts ≠ [] ∧
      splitNl (joinLastR ts) = withLastR ts := by
  intro ts
  induction ts with
  | nil => intro h; exact absurd rfl h
  | cons t ts ih =>
    intro _ hgood
    have ht := hgood t (List.mem_cons_self _ _)
    cases ts with
    | nil =>
      refine ⟨?_, trim_ne_nil_rtrim t ht.1, splitNl_single _ (nlFree_rtrim t ht.2)⟩
      show rtrim (t ++ '\n' :: joinNlAll []) = rtrim t
      exact rtrim_append_nl t
    | cons u ts2 =>
      have hgood2 : ∀ x ∈ u :: ts2, trimStr x ≠ [] ∧ '\n' ∉ x :=
        fun x hx => hgood x (List.mem_cons_of_mem _ hx)
      rcases ih (by simp) hgood2 with ⟨ih1, ih2, ih3⟩
      have hj : rtrim ('\n' :: joinNlAll (u :: ts2)) = '\n' :: joinLastR (u :: ts2) := by
        have h2 := rtrim_append ['\n'] (joinNlAll (u :: ts2)) (by rw [ih1]; exact ih2)
        rw [ih1] at h2
        exact h2
      refine ⟨?_, ?_, ?_⟩
      · show rtrim (t ++ '\n' :: joinNlAll (u :: ts2)) = t ++ '\n' :: joinLastR (u :: ts2)
        have hne : rtrim ('\n' :: joinNlAll (u :: ts2)) ≠ [] := by rw [hj]; simp
        have h2 := rtrim_append t ('\n' :: joinNlAll (u :: ts2)) hne
        rw [hj] at h2
        exact h2
      · show t ++ '\n' :: joinLastR (u :: ts2) ≠ []
        simp
      · show splitNl (t ++ '\n' :: joinLastR (u :: ts2)) = t :: withLastR (u :: ts2)
        rw [splitNl_append t _ ht.2, ih3]

/-- After extraction's final trim, splitting on newlines recovers the block
texts: the first left-trimmed, the last right-trimmed. -/
theorem splitNl_trim_joinNl (t0 : List Char) (ts : List (List Char))
    (h0 : trimStr t0 ≠ [] ∧ '\n' ∉ t0)
    (hts : ∀ t ∈ ts, trimStr t ≠ [] ∧ '\n' ∉ t) :
    splitNl (trimStr (joinNlAll (t0 :: ts))) = withLastR (ltrim t0 :: ts) := by
  have hlt : ltrim t0 ≠ [] := ltrim_ne_nil_of_trim t0 h0.1
  have hstep : ltrim (joinNlAll (t0 :: ts)) = joinNlAll (ltrim t0 :: ts) := by
    show ltrim (t0 ++ '\n' :: joinNlAll ts) = ltrim t0 ++ '\n' :: joinNlAll ts
    exact ltrim_append t0 _ hlt
  have hgood2 : ∀ t ∈ ltrim t0 :: ts, trimStr t ≠ [] ∧ '\n' ∉ t := by
    intro t htm
    rcases List.mem_cons.mp htm with rfl | hm
    · exact ⟨by rw [trim_ltrim]; exact h0.1, nlFree_ltrim t0 h0.2⟩
    · exact hts t hm
  rcases joinNl_rtrim_split (ltrim t0 :: ts) (by simp) hgood2 with ⟨h1, _, h3⟩
  rw [trimStr, hstep, h1, h3]

/-- A line the converter maps to exactly one block: nonblank and not a list
line. -/
def goodLine (l : List Char) : Prop :=
  trimStr l ≠ [] ∧ isBulletLine l = false ∧ isOrderedLine l = false

theorem goodLine_rtrim (l : List Char) (h : goodLine l) : goodLine (rtrim l) :=
  ⟨by rw [trim_rtrim]; exact h.1,
   isBulletLine_rtrim_false l h.2.1, isOrderedLine_rtrim_false l h.2.2⟩

/-- On good lines the converter emits exactly one block per line. -/
theorem mdLoopF_length :
    ∀ (fuel : Nat) (lines : List (List Char)), lines.length ≤ fuel →
      (∀ l ∈ lines, goodLine l) → (mdLoopF fuel lines).length = lines.length := by
  intro fuel
  induction fuel with
  | zero =>
    intro lines h _
    rw [List.length_eq_zero.mp (Nat.le_zero.mp h)]
    rfl
  | succ f ih =>
    intro lines hlen hg
    cases lines with
    | nil => rfl
    | cons l rest =>
      have hgl := hg l (List.mem_cons_self _ _)
      have hgrest : ∀ x ∈ rest, goodLine x := fun x hx => hg x (List.mem_cons_of_mem _ hx)
      have hlen2 : rest.length ≤ f := Nat.succ_le_succ_iff.mp hlen
      simp only [mdLoopF]
      split_ifs with h1 h2 h3 h4 h5 h6
      · exact absurd h1 hgl.1
      · simp [ih rest hlen2 hgrest]
      · simp [ih rest hlen2 hgrest]
      · simp [ih rest hlen2 hgrest]
      · rw [hgl.2.1] at h5; cases h5
      · rw [hgl.2.2] at h6; cases h6
      · simp [ih rest hlen2 hgrest]

theorem extractAux_listToTT (bs : List TT) (hk : ∀ b ∈ bs, isBlockT b = true) :
    extractAux (listToTT bs) = joinNlAll (bs.map extractAux) := by
  induction bs with
  | nil => rfl
  | cons b bs ih =>
    have hb := hk b (List.mem_cons_self _ _)
    show extractAux b ++ (if isBlockT b then ['\n'] else []) ++ extractAux (listToTT bs)
        = extractAux b ++ '\n' :: joinNlAll (bs.map extractAux)
    rw [if_pos hb, ih (fun x hx => hk x (List.mem_cons_of_mem _ hx))]
    simp [List.append_assoc]

/-- Hypotheses on a block's text under which the converter maps it back to
one block: no internal newline, not blank, and — both raw and after the left
trim that the extraction's final trim applies to the first line — not shaped
like a bullet or ordered-list line. -/
def goodBlockText (t : List Char) : Prop :=
  '\n' ∉ t ∧ trimStr t ≠ [] ∧ isBulletLine t = false ∧ isOrderedLine t = false ∧
  isBulletLine (ltrim t) = false ∧ isOrderedLine (ltrim t) = false

instance (t : List Char) : Decidable (goodBlockText t) := by
  unfold goodBlockText
  infer_instance

/-- C9 (amended): for a document consisting only of heading and paragraph
blocks whose texts carry no internal newline, are not blank, and do not
start with a bullet (`- `, `* `) or ordered-list (`N. `) marker, extracting
the text with `extractTextFromTiptap` and converting it back with the
line-oriented `markdownToTiptap` yields exactly one block per original block
(no two source blocks are merged).  The companion counterexample shows that
without the marker restriction two paragraphs are merged into one bullet
list. -/
theorem extract_convert_block_count (bs : List TT)
    (hk : ∀ b ∈ bs, isBlockT b = true)
    (hg : ∀ b ∈ bs, goodBlockText (extractAux b)) :
    (mdBlocks (extractTextFromTiptap (tnode .doc none none bs))).length = bs.length := by
  cases bs with
  | nil => decide
  | cons b bs2 =>
    have hgb := hg b (List.mem_cons_self _ _)
    have hdoc : extractTextFromTiptap (tnode .doc none none (b :: bs2))
        = trimStr (joinNlAll ((b :: bs2).map extractAux)) := by
      show trimStr (extractAux (listToTT (b :: bs2)))
          = trimStr (joinNlAll ((b :: bs2).map extractAux))
      rw [extractAux_listToTT _ hk]
    have hts : ∀ t ∈ bs2.map extractAux, trimStr t ≠ [] ∧ '\n' ∉ t := by
      intro t htm
      rcases List.mem_map.mp htm with ⟨x, hx, rfl⟩
      have hx2 := hg x (List.mem_cons_of_mem _ hx)
      exact ⟨hx2.2.1, hx2.1⟩
    have hlines := splitNl_trim_joinNl (extractAux b) (bs2.map extractAux)
      ⟨hgb.2.1, hgb.1⟩ hts
    have hgoodlines : ∀ l ∈ withLastR (ltrim (extractAux b) :: bs2.map extractAux),
        goodLine l := by
      have hgood0 : ∀ x ∈ ltrim (extractAux b) :: bs2.map extractAux, goodLine x := by
        intro x hx
        rcases List.mem_cons.mp hx with rfl | hx2
        · exact ⟨by rw [trim_ltrim]; exact hgb.2.1, hgb.2.2.2.2.1, hgb.2.2.2.2.2⟩
        · rcases List.mem_map.mp hx2 with ⟨y, hy, rfl⟩
          have hgy := hg y (List.mem_cons_of_mem _ hy)
          exact ⟨hgy.2.1, hgy.2.2.1, hgy.2.2.2.1⟩
      intro l hl
      rcases mem_withLastR _ _ hl with h1 | ⟨t2, ht2, rfl⟩
      · exact hgood0 l h1
      · exact goodLine_rtrim t2 (hgood0 t2 ht2)
    rw [hdoc, List.map_cons]
    unfold mdBlocks
    rw [hlines, mdLoopF_length _ _ (Nat.le_refl _) hgoodlines, length_withLastR]
    simp

/-- C9 counterexample: a document of two paragraphs whose texts are `- a`
and `- b` extracts to two lines that the converter merges into a single
bullet-list block — two source blocks become one block, so the claim as
stated (one block per original block for any nonblank newline-free texts) is
false. -/
theorem extract_convert_merges_bullet_paragraphs :
    mdBlocks (extractTextFromTiptap (tnode .doc none none
        [tnode .paragraph none none (ttext ['-', ' ', 'a']),
         tnode .paragraph none none (ttext ['-', ' ', 'b'])]))
      = [tnode .bulletList none none [mdListItem ['a'], mdListItem ['b']]] ∧
    (mdBlocks (extractTextFromTiptap (tnode .doc none none
        [tnode .paragraph none none (ttext ['-', ' ', 'a']),
         tnode .paragraph none none (ttext ['-', ' ', 'b'])]))).length = 1 ∧
    ([tnode .paragraph none none (ttext ['-', ' ', 'a']),
      tnode .paragraph none none (ttext ['-', ' ', 'b'])] : List TT).length = 2 ∧
    (1 : Nat) ≠ 2 := by decide

/-- Witness for C9 (amended): a heading plus a paragraph round-trip to two
blocks. -/
theorem extract_convert_block_count_witness :
    (∀ b ∈ [tnode .heading (some 1) none (ttext ['T']),
        tnode .paragraph none none (ttext ['h', 'i'])], isBlockT b = true) ∧
    (∀ b ∈ [tnode .heading (some 1) none (ttext ['T']),
        tnode .paragraph none none (ttext ['h', 'i'])], goodBlockText (extractAux b)) ∧
    (mdBlocks (extractTextFromTiptap (tnode .doc none none
        [tnode .heading (some 1) none (ttext ['T']),
         tnode .paragraph none none (ttext ['h', 'i'])]))).length
      = ([tnode .heading (some 1) none (ttext ['T']),
          tnode .paragraph none none (ttext ['h', 'i'])] : List TT).length :=
  ⟨by decide, by decide,
   extract_convert_block_count
     [tnode .heading (some 1) none (ttext ['T']),
      tnode .paragraph none none (ttext ['h', 'i'])] (by decide) (by decide)⟩
